import Mathlib

/-!
Shallow embedding of `self_multicam_calibration_node.cpp`: the config-file
parser (`parseTokenFromString`, `parseConfigFile`), the VO callback, the
IMU-buffer maintenance of the bag replay loop, and the camera count and
topic-name lists computed in `main`.  C++ strings are `List Char`; a config
file is `Option (List (List Char))` — `none` models a file the input stream
cannot open, otherwise the list of lines `getline` yields.
-/

/-- Index of the first space in `s`, as `std::string::find(" ")` returns it
(`none` models `npos`). -/
def findSpaceIdx (s : List Char) : Option Nat :=
  s.findIdx? (fun c => c == ' ')

/-- The token/remainder split `parseTokenFromString` performs on a nonempty
string: everything before the first space, and the rest after it.  When the
string holds no space, `pos` is `npos`, so `substr(0, npos)` is the whole
string and `erase(0, npos + 1)` erases nothing (`npos + 1` wraps to `0` in
`size_t`): the token is the whole string and the string stays unchanged. -/
def splitTok (s : List Char) : List Char × List Char :=
  match findSpaceIdx s with
  | some pos => (s.take pos, s.drop (pos + 1))
  | none => (s, s)

/-- `parseTokenFromString` (lines 24-37): fails only on an empty string;
otherwise returns the extracted token and the mutated remainder. -/
def parseTokenFromString (s : List Char) : Option (List Char × List Char) :=
  if s.isEmpty then none else some (splitTok s)

/-- `boost::iequals`: case-insensitive string equality, compared by lowering
each character. -/
def iequals (a b : List Char) : Bool :=
  a.map Char.toLower == b.map Char.toLower

/-- The mutable locals of `parseConfigFile`: the accumulated camera
namespace groups, the IMU topic name, and the `hasStereo` / `hasIMU`
flags. -/
structure ParseState where
  cameraNs : List (List (List Char))
  imuTopicName : List Char
  hasStereo : Bool
  hasIMU : Bool
deriving Repr, DecidableEq

/-- Initial locals of `parseConfigFile`: cleared output vectors, both flags
false. -/
def initState : ParseState :=
  { cameraNs := [], imuTopicName := [], hasStereo := false, hasIMU := false }

/-- The `stereo` branch of `parseConfigFile` (lines 75-97), on the string
remaining after the type token: extract the left then the right topic name
(each failed extraction is `return false`), then push the pair onto
`cameraNs` and set `hasStereo`. -/
def stereoBranch (st : ParseState) (s : List Char) : Option ParseState :=
  match parseTokenFromString s with
  | none => none
  | some (leftTopicName, s1) =>
    match parseTokenFromString s1 with
    | none => none
    | some (rightTopicName, _) =>
      some { st with
             cameraNs := st.cameraNs ++ [[leftTopicName, rightTopicName]],
             hasStereo := true }

/-- The `mono` branch of `parseConfigFile` (lines 98-110): extract the topic
name and push a singleton group onto `cameraNs`. -/
def monoBranch (st : ParseState) (s : List Char) : Option ParseState :=
  match parseTokenFromString s with
  | none => none
  | some (topicName, _) =>
    some { st with cameraNs := st.cameraNs ++ [[topicName]] }

/-- The `imu` branch of `parseConfigFile` (lines 111-126): a second `imu`
declaration is `return false`; otherwise extract the topic name and set
`hasIMU`. -/
def imuBranch (st : ParseState) (s : List Char) : Option ParseState :=
  if st.hasIMU then
    none
  else
    match parseTokenFromString s with
    | none => none
    | some (topicName, _) =>
      some { st with imuTopicName := topicName, hasIMU := true }

/-- Body of one loop iteration of `parseConfigFile` after the sensor-type
token has been extracted (`token`), operating on the remaining string `s`:
the `stereo` / `mono` / `imu` / unknown branch chain (lines 75-131).
`none` models `return false`. -/
def processLineTok (st : ParseState) (token s : List Char) : Option ParseState :=
  if iequals token ("stereo".toList) then stereoBranch st s
  else if iequals token ("mono".toList) then monoBranch st s
  else if iequals token ("imu".toList) then imuBranch st s
  else none

/-- One iteration of the `while (ifs.good())` loop of `parseConfigFile` on
the line `getline` read: empty lines are skipped (`continue`, modelled as
`some st`), otherwise the first token is extracted and dispatched. -/
def processLine (st : ParseState) (l : List Char) : Option ParseState :=
  if l.isEmpty then some st
  else
    match parseTokenFromString l with
    | none => some st
    | some (token, s) => processLineTok st token s

/-- The whole read loop of `parseConfigFile` over the file's lines;
`none` models an early `return false`. -/
def processLines (st : ParseState) : List (List Char) → Option ParseState
  | [] => some st
  | l :: ls =>
    match processLine st l with
    | none => none
    | some st' => processLines st' ls

/-- `parseConfigFile` (lines 39-140) on an opened file's lines: run the
read loop, then reject unless at least one stereo pair and an IMU line were
declared; on success return the camera namespace groups and the IMU
topic name. -/
def parseConfigFile (lines : List (List Char)) :
    Option (List (List (List Char)) × List Char) :=
  match processLines initState lines with
  | none => none
  | some st =>
    if !st.hasStereo || !st.hasIMU then none
    else some (st.cameraNs, st.imuTopicName)

/-- `parseConfigFile` including the stream-open check (lines 50-55):
`none` as input models a file that cannot be opened, which is rejected. -/
def parseConfigFileOpt (file : Option (List (List Char))) :
    Option (List (List (List Char)) × List Char) :=
  match file with
  | none => none
  | some lines => parseConfigFile lines

/-- Outcome of `main` at the configuration stage: either an early
`return code` — before which no calibration files and no pose file have
been written (the write calls sit at the very end of `main`) — or
proceeding with the parsed camera namespaces and IMU topic. -/
inductive MainResult where
  | earlyExit (code : Nat) (wroteCalib : Bool) (wrotePoses : Bool)
  | proceed (cameraNs : List (List (List Char))) (imuTopicName : List Char)
deriving Repr, DecidableEq

/-- The config-loading stage of `main` (lines 240-244): a failed
`parseConfigFile` is `return 1`, with nothing written. -/
def mainAfterConfig (file : Option (List (List Char))) : MainResult :=
  match parseConfigFileOpt file with
  | none => MainResult.earlyExit 1 false false
  | some (cns, imu) => MainResult.proceed cns imu

/-- The camera count `main` computes (lines 246-250): the sum of the sizes
of the per-declaration namespace groups. -/
def nCams (cameraNs : List (List (List Char))) : Nat :=
  cameraNs.foldl (fun n g => n + g.length) 0

/-- The camera-info topic list built in `main` (lines 265-274): one entry
per camera namespace, in declaration order. -/
def camInfoTopicNames (cameraNs : List (List (List Char))) : List (List Char) :=
  cameraNs.flatten.map (fun ns => ns ++ ("/camera_info".toList))

/-- The image topic list built in `main` (lines 265-274). -/
def camImageTopicNames (cameraNs : List (List (List Char))) : List (List Char) :=
  cameraNs.flatten.map (fun ns => ns ++ ("/image_raw".toList))

/-- An inertial sample (`sensor_msgs::Imu`): only the header timestamp is
relevant to the modelled code. -/
structure ImuMsg where
  stamp : Nat
deriving Repr, DecidableEq

/-- An incoming image message (`sensor_msgs::Image`): its header timestamp
and the result of `cv_bridge::toCvShare` + `copyTo` on it (`none` models a
`cv_bridge::Exception`), with the decoded pixel data abstracted as `α`. -/
structure ImageMsg (α : Type) where
  stamp : Nat
  conv : Option α
deriving Repr, DecidableEq

/-- The arguments of a `sc->processFrames` invocation. -/
structure ProcessFramesCall (α : Type) where
  stamp : Nat
  images : List α
  imu : ImuMsg
deriving Repr, DecidableEq

/-- `voCallback` (lines 142-192): search the IMU buffer from the back for a
sample whose timestamp equals the first image's timestamp; if none is found,
warn and return.  Then convert the four images in order; a conversion
failure aborts the callback.  Only when a matching sample exists and all
four images convert is `sc->processFrames` invoked; the result is that
invocation's arguments, `none` meaning the frame was skipped (the callback
takes the buffer by const reference and touches no other state). -/
def voCallback {α : Type} (m0 m1 m2 m3 : ImageMsg α) (imuBuffer : List ImuMsg) :
    Option (ProcessFramesCall α) :=
  match imuBuffer.reverse.find? (fun m => m.stamp == m0.stamp) with
  | none => none
  | some imuMsg =>
    match m0.conv, m1.conv, m2.conv, m3.conv with
    | some i0, some i1, some i2, some i3 =>
      some { stamp := m0.stamp, images := [i0, i1, i2, i3], imu := imuMsg }
    | _, _, _, _ => none

/-- The `while (imuBuffer.size() > 50) imuBuffer.pop_front();` loop of the
bag replay loop (lines 435-438). -/
def trimBuffer (l : List ImuMsg) : List ImuMsg :=
  if l.length > 50 then trimBuffer l.tail else l
termination_by l.length
decreasing_by simp [List.length_tail]; omega

/-- The IMU branch of the bag replay loop (lines 429-440): append the new
sample at the back, then pop from the front while the buffer exceeds 50
samples.  This is the only statement of `main` that mutates the buffer. -/
def imuBufferInsert (buf : List ImuMsg) (m : ImuMsg) : List ImuMsg :=
  trimBuffer (buf ++ [m])

/-- First token of a line, as `parseTokenFromString` extracts it. -/
def firstTok (l : List Char) : List Char :=
  (splitTok l).1

/-- Remainder of a line after its first token is extracted. -/
def lineRest (l : List Char) : List Char :=
  (splitTok l).2

/-- The line is nonempty and its first token case-insensitively equals
`stereo`. -/
def isStereoLine (l : List Char) : Bool :=
  !l.isEmpty && iequals (firstTok l) ("stereo".toList)

/-- The line is nonempty and its first token case-insensitively equals
`mono`. -/
def isMonoLine (l : List Char) : Bool :=
  !l.isEmpty && iequals (firstTok l) ("mono".toList)

/-- The line is nonempty and its first token case-insensitively equals
`imu`. -/
def isImuLine (l : List Char) : Bool :=
  !l.isEmpty && iequals (firstTok l) ("imu".toList)

/-- The line's first token is one of the three recognized sensor types. -/
def recognizedType (l : List Char) : Bool :=
  isStereoLine l || isMonoLine l || isImuLine l

/-- The two topic extractions of the `stereo` branch succeed on this line:
the remainder after the type token is nonempty, and so is the remainder
after the left topic. -/
def stereoArgsOk (l : List Char) : Bool :=
  !(lineRest l).isEmpty && !((splitTok (lineRest l)).2).isEmpty

/-- The single topic extraction of the `mono` / `imu` branch succeeds. -/
def oneArgOk (l : List Char) : Bool :=
  !(lineRest l).isEmpty

/-- The read loop does not `return false` on this line (empty lines are
skipped; otherwise the type must be recognized and its branch's topic
extractions must succeed — duplicate-IMU rejection is tracked separately,
per file, not per line). -/
def lineOk (l : List Char) : Bool :=
  l.isEmpty || (isStereoLine l && stereoArgsOk l) ||
    (isMonoLine l && oneArgOk l) || (isImuLine l && oneArgOk l)

/-- The two topics a `stereo` line contributes: left then right. -/
def stereoTopics (l : List Char) : List (List Char) :=
  [(splitTok (lineRest l)).1, (splitTok ((splitTok (lineRest l)).2)).1]

/-- The topic a `mono` line contributes. -/
def monoTopic (l : List Char) : List Char :=
  (splitTok (lineRest l)).1

/-- The topic an `imu` line declares. -/
def imuTopicOfLine (l : List Char) : List Char :=
  (splitTok (lineRest l)).1

/-- The camera-namespace group a single line contributes, if any. -/
def lineCams (l : List Char) : Option (List (List Char)) :=
  if isStereoLine l then some (stereoTopics l)
  else if isMonoLine l then some [monoTopic l]
  else none

/-- The camera-namespace groups of a file, one group per camera line, in
file order. -/
def camsOf (lines : List (List Char)) : List (List (List Char)) :=
  lines.filterMap lineCams

/-- Number of `imu` lines in a file. -/
def imuLineCount (lines : List (List Char)) : Nat :=
  (lines.filter isImuLine).length

/-- Spec-side definition of a recognized sensor declaration, following the
spec's words: "recognized forms `stereo <topicA> <topicB>`,
`mono <topic>`, `imu <topic>`" — the line splits on spaces into exactly the
type token and its topic tokens, each topic nonempty. -/
def specRecognizedDecl (l : List Char) : Bool :=
  match l.splitOn ' ' with
  | [t, a, b] => iequals t ("stereo".toList) && !a.isEmpty && !b.isEmpty
  | [t, a] => (iequals t ("mono".toList) || iequals t ("imu".toList)) && !a.isEmpty
  | _ => false

/-- Config with two stereo pairs and one IMU line. -/
def twoStereoCfg : List (List Char) :=
  ["stereo /l0 /r0".toList, "stereo /l1 /r1".toList, "imu /imu".toList]

/-- Config with a single stereo pair (two cameras) and one IMU line. -/
def oneStereoCfg : List (List Char) :=
  ["stereo /a /b".toList, "imu /i".toList]

/-- Config with a stereo pair, a mono camera and one IMU line. -/
def mixedCfg : List (List Char) :=
  ["stereo /l /r".toList, "mono /m".toList, "imu /i".toList]

/-- Config whose `stereo` line carries no topics at all. -/
def bareStereoCfg : List (List Char) :=
  ["stereo".toList, "imu /i".toList]

/-- Config whose `stereo` line carries a single topic. -/
def stereoOneTopicCfg : List (List Char) :=
  ["stereo /cam0".toList, "imu /imu".toList]

/-- Config whose `imu` line carries no topic. -/
def imuBareCfg : List (List Char) :=
  ["stereo /a /b".toList, "imu".toList]

/-- Config with two `imu` lines. -/
def dupImuCfg : List (List Char) :=
  ["stereo /a /b".toList, "imu /i".toList, "imu /j".toList]

/-- Config with no stereo pair. -/
def noStereoCfg : List (List Char) :=
  ["mono /m".toList, "imu /i".toList]

/-- Config with no `imu` line. -/
def noImuCfg : List (List Char) :=
  ["stereo /a /b".toList]

theorem iequals_iff (a b : List Char) :
    iequals a b = true ↔ a.map Char.toLower = b.map Char.toLower := by
  simp [iequals]

theorem iequals_false_of_ne (t a b : List Char) (ha : iequals t a = true)
    (hab : a.map Char.toLower ≠ b.map Char.toLower) : iequals t b = false := by
  rw [iequals_iff] at ha
  rcases Bool.eq_false_or_eq_true (iequals t b) with h | h
  · rw [iequals_iff] at h
    exact absurd (ha.symm.trans h) hab
  · exact h

theorem not_imu_of_stereo (l : List Char) (h : isStereoLine l = true) :
    isImuLine l = false := by
  simp only [isStereoLine, Bool.and_eq_true] at h
  have hne := iequals_false_of_ne (firstTok l) ("stereo".toList) ("imu".toList)
    h.2 (by decide)
  simp only [isImuLine, hne, Bool.and_false]

theorem not_imu_of_mono (l : List Char) (h : isMonoLine l = true) :
    isImuLine l = false := by
  simp only [isMonoLine, Bool.and_eq_true] at h
  have hne := iequals_false_of_ne (firstTok l) ("mono".toList) ("imu".toList)
    h.2 (by decide)
  simp only [isImuLine, hne, Bool.and_false]

theorem stereoBranch_eq (st : ParseState) (s : List Char) :
    stereoBranch st s =
      if !s.isEmpty && !((splitTok s).2).isEmpty then
        some { st with
               cameraNs := st.cameraNs ++
                 [[(splitTok s).1, (splitTok ((splitTok s).2)).1]],
               hasStereo := true }
      else none := by
  by_cases h1 : s.isEmpty
  · simp [stereoBranch, parseTokenFromString, h1]
  · by_cases h2 : ((splitTok s).2).isEmpty
    · simp [stereoBranch, parseTokenFromString, h1, h2]
    · simp [stereoBranch, parseTokenFromString, h1, h2]

theorem monoBranch_eq (st : ParseState) (s : List Char) :
    monoBranch st s =
      if !s.isEmpty then
        some { st with cameraNs := st.cameraNs ++ [[(splitTok s).1]] }
      else none := by
  by_cases h1 : s.isEmpty
  · simp [monoBranch, parseTokenFromString, h1]
  · simp [monoBranch, parseTokenFromString, h1]

theorem imuBranch_eq (st : ParseState) (s : List Char) :
    imuBranch st s =
      if st.hasIMU then none
      else if !s.isEmpty then
        some { st with imuTopicName := (splitTok s).1, hasIMU := true }
      else none := by
  by_cases h0 : st.hasIMU
  · simp [imuBranch, h0]
  · by_cases h1 : s.isEmpty
    · simp [imuBranch, parseTokenFromString, h0, h1]
    · simp [imuBranch, parseTokenFromString, h0, h1]

theorem processLine_eq (st : ParseState) (l : List Char) :
    processLine st l =
      if l.isEmpty then some st
      else if isStereoLine l then
        if stereoArgsOk l then
          some { st with
                 cameraNs := st.cameraNs ++ [stereoTopics l],
                 hasStereo := true }
        else none
      else if isMonoLine l then
        if oneArgOk l then
          some { st with cameraNs := st.cameraNs ++ [[monoTopic l]] }
        else none
      else if isImuLine l then
        if st.hasIMU then none
        else if oneArgOk l then
          some { st with imuTopicName := imuTopicOfLine l, hasIMU := true }
        else none
      else none := by
  by_cases hE : l.isEmpty
  · simp [processLine, hE]
  · simp [processLine, parseTokenFromString, hE, processLineTok,
      stereoBranch_eq, monoBranch_eq, imuBranch_eq, isStereoLine, isMonoLine,
      isImuLine, firstTok, lineRest, stereoArgsOk, oneArgOk, stereoTopics,
      monoTopic, imuTopicOfLine]

theorem not_mono_of_stereo (l : List Char) (h : isStereoLine l = true) :
    isMonoLine l = false := by
  simp only [isStereoLine, Bool.and_eq_true] at h
  have hne := iequals_false_of_ne (firstTok l) ("stereo".toList) ("mono".toList)
    h.2 (by decide)
  simp only [isMonoLine, hne, Bool.and_false]

theorem processLines_isSome (lines : List (List Char)) : ∀ st : ParseState,
    (processLines st lines).isSome = true ↔
      (∀ l ∈ lines, lineOk l = true) ∧
        imuLineCount lines + (if st.hasIMU then 1 else 0) ≤ 1 := by
  induction lines with
  | nil =>
    intro st
    cases h : st.hasIMU <;> simp [processLines, imuLineCount, h]
  | cons l ls ih =>
    intro st
    by_cases hE : l.isEmpty = true
    · have hImu : isImuLine l = false := by simp [isImuLine, hE]
      have hOk : lineOk l = true := by simp [lineOk, hE]
      simp [processLines, processLine_eq, hE, ih, imuLineCount,
        List.filter_cons, hImu, hOk, List.forall_mem_cons]
    · by_cases hS : isStereoLine l = true
      · have hImu := not_imu_of_stereo l hS
        by_cases hA : stereoArgsOk l = true
        · have hOk : lineOk l = true := by simp [lineOk, hS, hA]
          simp [processLines, processLine_eq, hE, hS, hA, ih, imuLineCount,
            List.filter_cons, hImu, hOk, List.forall_mem_cons]
        · have hOk : lineOk l = false := by
            simp [lineOk, hE, hS, hA, not_mono_of_stereo l hS, hImu]
          simp [processLines, processLine_eq, hE, hS, hA, hOk,
            List.forall_mem_cons]
      · by_cases hM : isMonoLine l = true
        · have hImu := not_imu_of_mono l hM
          by_cases hA : oneArgOk l = true
          · have hOk : lineOk l = true := by simp [lineOk, hM, hA]
            simp [processLines, processLine_eq, hE, hS, hM, hA, ih, imuLineCount,
              List.filter_cons, hImu, hOk, List.forall_mem_cons]
          · have hOk : lineOk l = false := by simp [lineOk, hE, hS, hM, hA, hImu]
            simp [processLines, processLine_eq, hE, hS, hM, hA, hOk,
              List.forall_mem_cons]
        · by_cases hI : isImuLine l = true
          · by_cases hH : st.hasIMU = true
            · simp only [processLines, processLine_eq, hE, hS, hM, hI, hH,
                if_true, if_false, Bool.false_eq_true, imuLineCount,
                List.filter_cons, List.forall_mem_cons]
              simp only [if_pos hI, List.length_cons]
              constructor
              · intro h
                simp at h
              · rintro ⟨-, hc⟩
                omega
            · by_cases hA : oneArgOk l = true
              · have hOk : lineOk l = true := by simp [lineOk, hI, hA]
                have hH' : st.hasIMU = false := by
                  cases h : st.hasIMU
                  · rfl
                  · exact absurd h hH
                simp [processLines, processLine_eq, hE, hS, hM, hI, hA, hH', ih,
                  imuLineCount, List.filter_cons, hOk, List.forall_mem_cons]
              · have hOk : lineOk l = false := by simp [lineOk, hE, hS, hM, hA]
                simp [processLines, processLine_eq, hE, hS, hM, hI, hA, hOk,
                  List.forall_mem_cons]
          · have hOk : lineOk l = false := by simp [lineOk, hE, hS, hM, hI]
            simp [processLines, processLine_eq, hE, hS, hM, hI, hOk,
              List.forall_mem_cons]

theorem processLines_state (lines : List (List Char)) : ∀ st st' : ParseState,
    processLines st lines = some st' →
      st'.cameraNs = st.cameraNs ++ camsOf lines ∧
        st'.hasStereo = (st.hasStereo || lines.any isStereoLine) ∧
        st'.hasIMU = (st.hasIMU || lines.any isImuLine) := by
  induction lines with
  | nil =>
    intro st st' h
    simp only [processLines, Option.some.injEq] at h
    simp [← h, camsOf]
  | cons l ls ih =>
    intro st st' h
    by_cases hE : l.isEmpty = true
    · have hS0 : isStereoLine l = false := by simp [isStereoLine, hE]
      have hM0 : isMonoLine l = false := by simp [isMonoLine, hE]
      have hI0 : isImuLine l = false := by simp [isImuLine, hE]
      simp only [processLines, processLine_eq, hE, if_true] at h
      rcases ih st st' h with ⟨h1, h2, h3⟩
      simp [h1, h2, h3, camsOf, lineCams, hS0, hM0, hI0]
    · by_cases hS : isStereoLine l = true
      · by_cases hA : stereoArgsOk l = true
        · simp only [processLines, processLine_eq, hE, hS, hA, if_true,
            if_false, Bool.false_eq_true] at h
          rcases ih _ st' h with ⟨h1, h2, h3⟩
          simp only [camsOf, List.filterMap_cons, lineCams, hS, if_pos] at h1 ⊢
          refine ⟨?_, ?_, ?_⟩
          · simpa [List.append_assoc] using h1
          · rw [h2]
            simp [List.any_cons, hS]
          · rw [h3]
            simp [List.any_cons, not_imu_of_stereo l hS]
        · simp [processLines, processLine_eq, hE, hS, hA] at h
      · by_cases hM : isMonoLine l = true
        · by_cases hA : oneArgOk l = true
          · simp only [processLines, processLine_eq, hE, hS, hM, hA, if_true,
              if_false, Bool.false_eq_true] at h
            rcases ih _ st' h with ⟨h1, h2, h3⟩
            simp only [camsOf, List.filterMap_cons, lineCams, hS, hM] at h1 ⊢
            refine ⟨?_, ?_, ?_⟩
            · simpa [List.append_assoc] using h1
            · rw [h2]
              simp [List.any_cons, hS]
            · rw [h3]
              simp [List.any_cons, not_imu_of_mono l hM]
          · simp [processLines, processLine_eq, hE, hS, hM, hA] at h
        · by_cases hI : isImuLine l = true
          · by_cases hH : st.hasIMU = true
            · simp [processLines, processLine_eq, hE, hS, hM, hI, hH] at h
            · by_cases hA : oneArgOk l = true
              · have hH' : st.hasIMU = false := by
                  cases hx : st.hasIMU
                  · rfl
                  · exact absurd hx hH
                simp only [processLines, processLine_eq, hE, hS, hM, hI, hA,
                  hH', if_true, if_false, Bool.false_eq_true] at h
                rcases ih _ st' h with ⟨h1, h2, h3⟩
                simp only [camsOf, List.filterMap_cons, lineCams, hS, hM] at h1 ⊢
                refine ⟨?_, ?_, ?_⟩
                · simpa using h1
                · rw [h2]
                  simp [List.any_cons, hS]
                · rw [h3]
                  simp [List.any_cons, hI, hH']
              · simp [processLines, processLine_eq, hE, hS, hM, hI, hA] at h
          · simp [processLines, processLine_eq, hE, hS, hM, hI] at h

theorem any_imu_iff (lines : List (List Char)) :
    lines.any isImuLine = true ↔ 0 < imuLineCount lines := by
  constructor
  · intro h
    rw [List.any_eq_true] at h
    rcases h with ⟨x, hx, hp⟩
    have hmem : x ∈ lines.filter isImuLine := List.mem_filter.2 ⟨hx, hp⟩
    exact List.length_pos.2 (List.ne_nil_of_mem hmem)
  · intro h
    have hne : lines.filter isImuLine ≠ [] := by
      intro hnil
      unfold imuLineCount at h
      rw [hnil] at h
      simp at h
    rcases List.exists_mem_of_ne_nil _ hne with ⟨x, hx⟩
    have hxf := List.mem_filter.1 hx
    rw [List.any_eq_true]
    exact ⟨x, hxf.1, hxf.2⟩

theorem parseConfigFile_isSome_iff (lines : List (List Char)) :
    (parseConfigFile lines).isSome = true ↔
      (∀ l ∈ lines, lineOk l = true) ∧ (∃ l ∈ lines, isStereoLine l = true) ∧
        imuLineCount lines = 1 := by
  unfold parseConfigFile
  cases h : processLines initState lines with
  | none =>
    have hiff := processLines_isSome lines initState
    rw [h] at hiff
    simp only [initState, Option.isSome_none, Bool.false_eq_true, false_iff] at hiff
    simp only [Option.isSome_none, Bool.false_eq_true, false_iff]
    rintro ⟨hOk, -, hc⟩
    exact hiff ⟨hOk, by simp [hc]⟩
  | some st =>
    have hiff := processLines_isSome lines initState
    rw [h] at hiff
    simp only [initState, Option.isSome_some, true_iff, if_neg,
      Bool.false_eq_true, Nat.add_zero] at hiff
    rcases hiff with ⟨hOk, hle⟩
    rcases processLines_state lines initState st h with ⟨-, h2, h3⟩
    simp only [initState, Bool.false_or] at h2 h3
    cases hb : st.hasStereo with
    | false =>
      simp only [hb, Bool.not_false, Bool.true_or, if_true, Option.isSome_none,
        Bool.false_eq_true, false_iff]
      rintro ⟨-, hex, -⟩
      rw [hb] at h2
      exact absurd (List.any_eq_true.2 hex) (by rw [← h2]; simp)
    | true =>
      cases hi : st.hasIMU with
      | false =>
        simp only [hb, hi, Bool.not_true, Bool.not_false, Bool.false_or,
          if_true, Option.isSome_none, Bool.false_eq_true, false_iff]
        rintro ⟨-, -, hc⟩
        have hpos : 0 < imuLineCount lines := by omega
        have hany := (any_imu_iff lines).2 hpos
        rw [← h3, hi] at hany
        exact absurd hany (by simp)
      | true =>
        simp only [hb, hi, Bool.not_true, Bool.or_self, Bool.false_eq_true,
          if_false, Option.isSome_some, true_iff]
        refine ⟨hOk, ?_, ?_⟩
        · exact List.any_eq_true.1 (by rw [← h2, hb])
        · have hpos : 0 < imuLineCount lines :=
            (any_imu_iff lines).1 (by rw [← h3, hi])
          omega

theorem parseConfigFile_some_cameraNs (lines : List (List Char))
    (cns : List (List (List Char))) (imu : List Char)
    (h : parseConfigFile lines = some (cns, imu)) : cns = camsOf lines := by
  unfold parseConfigFile at h
  cases hp : processLines initState lines with
  | none =>
    rw [hp] at h
    simp at h
  | some st =>
    rw [hp] at h
    have h' : (if (!st.hasStereo || !st.hasIMU) = true then none
        else some (st.cameraNs, st.imuTopicName)) = some (cns, imu) := h
    by_cases hc : (!st.hasStereo || !st.hasIMU) = true
    · rw [if_pos hc] at h'
      simp at h'
    · rw [if_neg hc] at h'
      simp only [Option.some.injEq, Prod.mk.injEq] at h'
      rcases processLines_state lines initState st hp with ⟨h1, -, -⟩
      rw [← h'.1, h1]
      simp [initState]

theorem nCams_foldl (cns : List (List (List Char))) : ∀ a : Nat,
    cns.foldl (fun n g => n + g.length) a = a + (cns.map List.length).sum := by
  induction cns with
  | nil =>
    intro a
    simp
  | cons g gs ih =>
    intro a
    simp only [List.foldl_cons, List.map_cons, List.sum_cons, ih]
    omega

theorem nCams_eq (cns : List (List (List Char))) :
    nCams cns = (cns.map List.length).sum := by
  simpa using nCams_foldl cns 0

theorem camsOf_length_sum (lines : List (List Char)) :
    ((camsOf lines).map List.length).sum =
      2 * (lines.filter isStereoLine).length +
        (lines.filter isMonoLine).length := by
  induction lines with
  | nil =>
    simp [camsOf]
  | cons l ls ih =>
    by_cases hS : isStereoLine l = true
    · have hM := not_mono_of_stereo l hS
      simp [camsOf, List.filterMap_cons, lineCams, hS, hM, List.filter_cons,
        stereoTopics] at ih ⊢
      omega
    · by_cases hM : isMonoLine l = true
      · simp [camsOf, List.filterMap_cons, lineCams, hS, hM,
          List.filter_cons] at ih ⊢
        omega
      · simp [camsOf, List.filterMap_cons, lineCams, hS, hM,
          List.filter_cons] at ih ⊢
        exact ih

theorem nCams_camsOf (lines : List (List Char)) :
    nCams (camsOf lines) =
      2 * (lines.filter isStereoLine).length +
        (lines.filter isMonoLine).length := by
  rw [nCams_eq]
  exact camsOf_length_sum lines

theorem length_camInfoTopicNames (cns : List (List (List Char))) :
    (camInfoTopicNames cns).length = nCams cns := by
  simp [camInfoTopicNames, nCams_eq, List.length_flatten, Function.comp_def,
    List.length_map]

theorem length_camImageTopicNames (cns : List (List (List Char))) :
    (camImageTopicNames cns).length = nCams cns := by
  simp [camImageTopicNames, nCams_eq, List.length_flatten, Function.comp_def,
    List.length_map]

theorem trimBuffer_drop_aux : ∀ (n : Nat) (l : List ImuMsg), l.length ≤ n →
    trimBuffer l = l.drop (l.length - 50) := by
  intro n
  induction n with
  | zero =>
    intro l hl
    have hnil : l = [] := List.eq_nil_of_length_eq_zero (Nat.le_zero.1 hl)
    subst hnil
    rw [trimBuffer]
    simp
  | succ n ih =>
    intro l hl
    rw [trimBuffer]
    by_cases h : l.length > 50
    · rw [if_pos h]
      have htl : l.tail.length ≤ n := by
        simp only [List.length_tail]
        omega
      rw [ih l.tail htl]
      have h1 : l.tail = l.drop 1 := (List.drop_one l).symm
      rw [h1, List.drop_drop]
      congr 1
      simp only [List.length_tail, List.length_drop]
      omega
    · rw [if_neg h]
      have h0 : l.length - 50 = 0 := by omega
      rw [h0]
      rfl

theorem trimBuffer_drop (l : List ImuMsg) :
    trimBuffer l = l.drop (l.length - 50) :=
  trimBuffer_drop_aux l.length l le_rfl

theorem findIdx_space_aux (rest : List Char) : ∀ (t : List Char), ' ' ∉ t →
    ∀ i : Nat,
      List.findIdx? (fun c => c == ' ') (t ++ ' ' :: rest) i =
        some (t.length + i) := by
  intro t
  induction t with
  | nil =>
    intro h i
    simp [List.findIdx?_cons]
  | cons c ts ih =>
    intro h i
    have hc : (c == ' ') = false := by
      rw [beq_eq_false_iff_ne]
      intro hcc
      exact h (by rw [hcc]; exact List.mem_cons_self _ _)
    rw [List.cons_append, List.findIdx?_cons, hc]
    simp only [Bool.false_eq_true, if_false]
    rw [ih (fun hm => h (List.mem_cons_of_mem _ hm)) (i + 1)]
    congr 1
    simp only [List.length_cons]
    omega

theorem splitTok_append_space (t rest : List Char) (h : ' ' ∉ t) :
    splitTok (t ++ ' ' :: rest) = (t, rest) := by
  unfold splitTok findSpaceIdx
  rw [show List.findIdx? (fun c => c == ' ') (t ++ ' ' :: rest) = some t.length by
    simpa using findIdx_space_aux rest t h 0]
  have h1 : (t ++ ' ' :: rest).take t.length = t := List.take_left t (' ' :: rest)
  have h2 : (t ++ ' ' :: rest).drop (t.length + 1) = rest := by
    have ha : t ++ ' ' :: rest = (t ++ [' ']) ++ rest := by simp
    rw [ha, show t.length + 1 = (t ++ [' ']).length by simp]
    exact List.drop_left (t ++ [' ']) rest
  show (List.take t.length (t ++ ' ' :: rest),
    List.drop (t.length + 1) (t ++ ' ' :: rest)) = (t, rest)
  rw [h1, h2]

theorem space_not_mem_of_map_toLower (t w : List Char)
    (h : t.map Char.toLower = w) (hw : ' ' ∉ w) : ' ' ∉ t := by
  intro hm
  have hmem : Char.toLower ' ' ∈ t.map Char.toLower := List.mem_map_of_mem _ hm
  rw [h, show Char.toLower ' ' = ' ' by decide] at hmem
  exact hw hmem

theorem processLine_append_space (st : ParseState) (t rest : List Char)
    (hsp : ' ' ∉ t) :
    processLine st (t ++ ' ' :: rest) = processLineTok st t rest := by
  have hsplit := splitTok_append_space t rest hsp
  have hE : (t ++ ' ' :: rest).isEmpty = false := by simp
  simp [processLine, parseTokenFromString, hE, hsplit]

/-- C1 (amended): `parseConfigFile` accepts a config file iff the file
opens, every nonempty line passes the parser's own per-line check
(recognized type token, case-insensitive, and the branch's token
extractions succeed — a missing trailing topic is tolerated by re-reading
the preceding token), at least one stereo line is declared, and exactly one
imu line is declared; a file with no stereo line, one with no imu line, and
one with two imu lines are each rejected. -/
theorem parseConfigFile_accepts_iff :
    (∀ file : Option (List (List Char)),
      (parseConfigFileOpt file).isSome = true ↔
        ∃ lines, file = some lines ∧ (∀ l ∈ lines, lineOk l = true) ∧
          (∃ l ∈ lines, isStereoLine l = true) ∧ imuLineCount lines = 1) ∧
      (parseConfigFileOpt (some noStereoCfg)).isSome = false ∧
      (parseConfigFileOpt (some noImuCfg)).isSome = false ∧
      (parseConfigFileOpt (some dupImuCfg)).isSome = false := by
  refine ⟨?_, by decide, by decide, by decide⟩
  intro file
  cases file with
  | none => simp [parseConfigFileOpt]
  | some lines =>
    simp only [parseConfigFileOpt]
    rw [parseConfigFile_isSome_iff]
    constructor
    · intro h
      exact ⟨lines, rfl, h.1, h.2.1, h.2.2⟩
    · rintro ⟨ls, hls, h1, h2, h3⟩
      rw [Option.some_inj] at hls
      subst hls
      exact ⟨h1, h2, h3⟩

/-- C1 counterexample: the config `["stereo", "imu /i"]` is accepted by the
code although its `stereo` line matches none of the spec's recognized
declaration forms (it carries no topic tokens), refuting the claimed
equivalence at this input. -/
theorem parseConfigFile_spec_forms_counterexample :
    ¬ ((parseConfigFileOpt (some bareStereoCfg)).isSome = true ↔
        ((some bareStereoCfg : Option (List (List Char))) ≠ none ∧
          (∀ l ∈ bareStereoCfg, l.isEmpty = false →
            specRecognizedDecl l = true) ∧
          (∃ l ∈ bareStereoCfg, isStereoLine l = true) ∧
          imuLineCount bareStereoCfg = 1)) := by
  decide

/-- C2: a config with two stereo lines and one imu line is accepted and
yields a camera count of 4; in general the camera count `main` computes
from an accepted config equals 2·(number of stereo lines) + (number of
mono lines). -/
theorem parseConfigFile_camera_count :
    (∀ (lines : List (List Char)) (cns : List (List (List Char)))
        (imu : List Char), parseConfigFile lines = some (cns, imu) →
        nCams cns = 2 * (lines.filter isStereoLine).length +
          (lines.filter isMonoLine).length) ∧
      parseConfigFile twoStereoCfg =
        some ([["/l0".toList, "/r0".toList], ["/l1".toList, "/r1".toList]],
          "/imu".toList) ∧
      nCams [["/l0".toList, "/r0".toList], ["/l1".toList, "/r1".toList]] = 4 := by
  refine ⟨?_, by decide, by decide⟩
  intro lines cns imu h
  rw [parseConfigFile_some_cameraNs lines cns imu h]
  exact nCams_camsOf lines

/-- C3: the code does not reject a recognized sensor line that is missing a
required topic token, against its own error branches ("... is improperly
defined") and the spec's load-time rejection: `parseTokenFromString` fails
to consume a token that is not followed by a space (`erase(0, npos + 1)`
erases nothing), so the next extraction re-reads the same token.  A
`stereo` line with a single topic is accepted with that topic duplicated as
left and right camera, and a bare `imu` line is accepted with the literal
token `imu` as the IMU topic name. -/
theorem missing_topic_lines_accepted :
    parseConfigFile stereoOneTopicCfg =
      some ([["/cam0".toList, "/cam0".toList]], "/imu".toList) ∧
    parseConfigFile imuBareCfg =
      some ([["/a".toList, "/b".toList]], "imu".toList) := by
  decide

/-- C4 counterexample: a config with a duplicate `imu` declaration does not
let the session continue — `parseConfigFile` returns false and `main` exits
early with code 1 — refuting the claim that a duplicate IMU declaration is
a non-fatal structural condition. -/
theorem duplicate_imu_counterexample :
    imuLineCount dupImuCfg = 2 ∧
      mainAfterConfig (some dupImuCfg) = MainResult.earlyExit 1 false false := by
  decide

/-- C4 (amended): a duplicate IMU declaration in the config is fatal:
`parseConfigFile` rejects the file and `main` returns 1 before writing any
calibration files or poses. -/
theorem duplicate_imu_is_fatal (lines : List (List Char))
    (h : 2 ≤ imuLineCount lines) :
    parseConfigFile lines = none ∧
      mainAfterConfig (some lines) = MainResult.earlyExit 1 false false := by
  have hnone : parseConfigFile lines = none := by
    cases hp : parseConfigFile lines with
    | none => rfl
    | some v =>
      have hs : (parseConfigFile lines).isSome = true := by rw [hp]; rfl
      rw [parseConfigFile_isSome_iff] at hs
      rcases hs with ⟨-, -, hc⟩
      omega
  refine ⟨hnone, ?_⟩
  simp [mainAfterConfig, parseConfigFileOpt, hnone]

/-- C4 witness: the amended theorem applied to the concrete duplicate-IMU
config. -/
theorem duplicate_imu_is_fatal_witness :
    parseConfigFile dupImuCfg = none ∧
      mainAfterConfig (some dupImuCfg) = MainResult.earlyExit 1 false false :=
  duplicate_imu_is_fatal dupImuCfg (by decide)

/-- C5: a config file that cannot be opened, or one containing a nonempty
line whose first token is not one of stereo/mono/imu, aborts the session:
`parseConfigFile` returns false and `main` returns 1 without writing
calibration files or poses. -/
theorem missing_or_unknown_config_aborts (file : Option (List (List Char)))
    (h : file = none ∨ ∃ lines, file = some lines ∧
      ∃ l ∈ lines, l.isEmpty = false ∧ recognizedType l = false) :
    mainAfterConfig file = MainResult.earlyExit 1 false false := by
  rcases h with rfl | ⟨lines, rfl, l, hl, hne, hrec⟩
  · rfl
  · have hrec' : (isStereoLine l = false ∧ isMonoLine l = false) ∧
        isImuLine l = false := by
      simpa [recognizedType] using hrec
    have hok : lineOk l = false := by
      simp [lineOk, hne, hrec'.1.1, hrec'.1.2, hrec'.2]
    have hnone : parseConfigFile lines = none := by
      cases hp : parseConfigFile lines with
      | none => rfl
      | some v =>
        have hs : (parseConfigFile lines).isSome = true := by rw [hp]; rfl
        rw [parseConfigFile_isSome_iff] at hs
        have hbad := hs.1 l hl
        rw [hok] at hbad
        exact absurd hbad (by simp)
    simp [mainAfterConfig, parseConfigFileOpt, hnone]

/-- C5 witness: the theorem applied to a config holding an unknown sensor
type token. -/
theorem missing_or_unknown_config_aborts_witness :
    mainAfterConfig (some ["foo /bar".toList]) =
      MainResult.earlyExit 1 false false :=
  missing_or_unknown_config_aborts (some ["foo /bar".toList])
    (Or.inr ⟨["foo /bar".toList], rfl, "foo /bar".toList,
      by decide, by decide, by decide⟩)

/-- C6: `sc->processFrames` is invoked exactly when the IMU buffer holds a
sample whose timestamp equals the images' shared timestamp and all four
images convert; otherwise the frame is skipped (the callback returns
without invoking it or touching other state).  When invoked, the call
carries the shared timestamp and a buffer sample bearing that timestamp. -/
theorem voCallback_invocation_iff (α : Type) (m0 m1 m2 m3 : ImageMsg α)
    (buf : List ImuMsg) :
    ((voCallback m0 m1 m2 m3 buf).isSome = true ↔
      (∃ imu ∈ buf, imu.stamp = m0.stamp) ∧ m0.conv.isSome = true ∧
        m1.conv.isSome = true ∧ m2.conv.isSome = true ∧
        m3.conv.isSome = true) ∧
      ∀ call : ProcessFramesCall α, voCallback m0 m1 m2 m3 buf = some call →
        call.stamp = m0.stamp ∧ call.imu ∈ buf ∧ call.imu.stamp = m0.stamp := by
  constructor
  · unfold voCallback
    cases hf : buf.reverse.find? (fun m => m.stamp == m0.stamp) with
    | none =>
      have hno : ∀ x ∈ buf, ¬ x.stamp = m0.stamp := by
        intro x hx hs
        have hx2 := List.find?_eq_none.1 hf x (List.mem_reverse.2 hx)
        simp [hs] at hx2
      simp only [Option.isSome_none, Bool.false_eq_true, false_iff]
      rintro ⟨⟨imu, hmem, hstamp⟩, -⟩
      exact hno imu hmem hstamp
    | some imuMsg =>
      have hmem : imuMsg ∈ buf :=
        List.mem_reverse.1 (List.mem_of_find?_eq_some hf)
      have hst : imuMsg.stamp = m0.stamp := by
        have hp := List.find?_some hf
        simpa using hp
      cases h0 : m0.conv with
      | none => simp [h0]
      | some i0 =>
        cases h1 : m1.conv with
        | none => simp [h0, h1]
        | some i1 =>
          cases h2 : m2.conv with
          | none => simp [h0, h1, h2]
          | some i2 =>
            cases h3 : m3.conv with
            | none => simp [h0, h1, h2, h3]
            | some i3 =>
              simp only [h0, h1, h2, h3, Option.isSome_some, true_iff,
                and_true]
              exact ⟨imuMsg, hmem, hst⟩
  · intro call hc
    unfold voCallback at hc
    cases hf : buf.reverse.find? (fun m => m.stamp == m0.stamp) with
    | none =>
      rw [hf] at hc
      exact absurd hc (by simp)
    | some imuMsg =>
      rw [hf] at hc
      have hmem : imuMsg ∈ buf :=
        List.mem_reverse.1 (List.mem_of_find?_eq_some hf)
      have hst : imuMsg.stamp = m0.stamp := by
        have hp := List.find?_some hf
        simpa using hp
      cases h0 : m0.conv with
      | none => rw [h0] at hc; simp at hc
      | some i0 =>
        cases h1 : m1.conv with
        | none => rw [h0, h1] at hc; simp at hc
        | some i1 =>
          cases h2 : m2.conv with
          | none => rw [h0, h1, h2] at hc; simp at hc
          | some i2 =>
            cases h3 : m3.conv with
            | none => rw [h0, h1, h2, h3] at hc; simp at hc
            | some i3 =>
              rw [h0, h1, h2, h3] at hc
              simp only [Option.some.injEq] at hc
              subst hc
              exact ⟨rfl, hmem, hst⟩

/-- C7: the IMU buffer is bounded at 50 samples with a drop-oldest policy:
inserting a sample appends it at the back and then pops from the front
while the bound is exceeded, so the result is `buf ++ [m]` with its oldest
`|buf| + 1 - 50` entries dropped, holds at most 50 samples, and is a suffix
of `buf ++ [m]` — the relative (hence timestamp) order of the remaining
samples is preserved. -/
theorem imuBuffer_bounded_drop_oldest (buf : List ImuMsg) (m : ImuMsg) :
    imuBufferInsert buf m = (buf ++ [m]).drop (buf.length + 1 - 50) ∧
      (imuBufferInsert buf m).length ≤ 50 ∧
      (imuBufferInsert buf m).IsSuffix (buf ++ [m]) := by
  have h1 : imuBufferInsert buf m = (buf ++ [m]).drop (buf.length + 1 - 50) := by
    unfold imuBufferInsert
    rw [trimBuffer_drop]
    congr 1
    simp
  refine ⟨h1, ?_, ?_⟩
  · rw [h1, List.length_drop, List.length_append]
    simp
    omega
  · rw [h1]
    exact List.drop_suffix _ _

/-- C8: `N_CAMERAS` is hardcoded to 4: for an accepted config with fewer
than 4 camera topics, index 3 — among the indices 0..3 the replay loop and
the 4-way synchronizer construction use — is out of bounds (`none`) for the
camera-info topic list, the image topic list, and any per-camera list sized
by the computed camera count, so `.at(i)` throws and processing cannot
complete; such configs exist: a single stereo pair is accepted with camera
count 2. -/
theorem nCams_lt_four_out_of_bounds :
    (∀ (lines : List (List Char)) (cns : List (List (List Char)))
        (imu : List Char), parseConfigFile lines = some (cns, imu) →
        nCams cns < 4 →
        (camInfoTopicNames cns)[3]? = none ∧
          (camImageTopicNames cns)[3]? = none ∧
          ∀ subs : List Unit, subs.length = nCams cns → subs[3]? = none) ∧
      parseConfigFile oneStereoCfg =
        some ([["/a".toList, "/b".toList]], "/i".toList) ∧
      nCams [["/a".toList, "/b".toList]] = 2 := by
  refine ⟨?_, by decide, by decide⟩
  intro lines cns imu hp hlt
  refine ⟨?_, ?_, ?_⟩
  · exact List.getElem?_eq_none (by rw [length_camInfoTopicNames]; omega)
  · exact List.getElem?_eq_none (by rw [length_camImageTopicNames]; omega)
  · intro subs hs
    exact List.getElem?_eq_none (by rw [hs]; omega)

theorem findIdx_no_space_aux : ∀ (t : List Char), ' ' ∉ t → ∀ i : Nat,
    List.findIdx? (fun c => c == ' ') t i = none := by
  intro t
  induction t with
  | nil =>
    intro h i
    simp
  | cons c ts ih =>
    intro h i
    have hc : (c == ' ') = false := by
      rw [beq_eq_false_iff_ne]
      intro hcc
      exact h (by rw [hcc]; exact List.mem_cons_self _ _)
    rw [List.findIdx?_cons, hc]
    simp only [Bool.false_eq_true, if_false]
    exact ih (fun hm => h (List.mem_cons_of_mem _ hm)) (i + 1)

theorem splitTok_no_space (t : List Char) (hsp : ' ' ∉ t) :
    splitTok t = (t, t) := by
  unfold splitTok findSpaceIdx
  rw [findIdx_no_space_aux t hsp 0]

theorem processLine_no_space (st : ParseState) (t : List Char)
    (hsp : ' ' ∉ t) (hne : t.isEmpty = false) :
    processLine st t = processLineTok st t t := by
  simp [processLine, parseTokenFromString, hne, splitTok_no_space t hsp]

/-- C9 counterexample: on a bare-token line the case variant is NOT treated
identically to the lowercase form: the unconsumed token is re-read as the
topic with its case preserved, so a lone `IMU` line stores the topic `IMU`
where a lone `imu` line stores `imu`, refuting the claimed identical
treatment for every line. -/
theorem sensor_type_case_counterexample :
    processLine initState ("IMU".toList) ≠
        processLine initState ("imu".toList) ∧
      processLine initState ("IMU".toList) =
        some { cameraNs := [], imuTopicName := "IMU".toList,
               hasStereo := false, hasIMU := true } ∧
      processLine initState ("imu".toList) =
        some { cameraNs := [], imuTopicName := "imu".toList,
               hasStereo := false, hasIMU := true } := by
  decide

/-- C9 (amended): sensor-type tokens are matched case-insensitively for
branch selection and acceptance: a line whose case-variant token is
followed by a space is processed exactly as the corresponding lowercase
form, and a bare variant-token line (no space, so the token is re-read as
its own topic) takes the same branch with the same success or failure and
the same `hasStereo` / `hasIMU` effects — only the stored topic string
keeps the original case. -/
theorem sensor_type_case_insensitive :
    (∀ (st : ParseState) (t rest : List Char),
      (t.map Char.toLower = ("stereo".toList) ∨
        t.map Char.toLower = ("mono".toList) ∨
        t.map Char.toLower = ("imu".toList)) →
      processLine st (t ++ ' ' :: rest) =
        processLine st (t.map Char.toLower ++ ' ' :: rest)) ∧
    (∀ (st : ParseState) (t : List Char),
      (t.map Char.toLower = ("stereo".toList) ∨
        t.map Char.toLower = ("mono".toList) ∨
        t.map Char.toLower = ("imu".toList)) →
      (processLine st t).isSome =
          (processLine st (t.map Char.toLower)).isSome ∧
        (processLine st t).map ParseState.hasStereo =
          (processLine st (t.map Char.toLower)).map ParseState.hasStereo ∧
        (processLine st t).map ParseState.hasIMU =
          (processLine st (t.map Char.toLower)).map ParseState.hasIMU) := by
  constructor
  · intro st t rest h
    have hsp : ' ' ∉ t := by
      rcases h with h1 | h1 | h1
      · exact space_not_mem_of_map_toLower t _ h1 (by decide)
      · exact space_not_mem_of_map_toLower t _ h1 (by decide)
      · exact space_not_mem_of_map_toLower t _ h1 (by decide)
    have hlow : (t.map Char.toLower).map Char.toLower = t.map Char.toLower := by
      rcases h with h1 | h1 | h1 <;> rw [h1] <;> decide
    have hsp2 : ' ' ∉ t.map Char.toLower := by
      rcases h with h1 | h1 | h1 <;> rw [h1] <;> decide
    rw [processLine_append_space st t rest hsp,
      processLine_append_space st (t.map Char.toLower) rest hsp2]
    have hiq : ∀ b : List Char, iequals (t.map Char.toLower) b = iequals t b := by
      intro b
      unfold iequals
      rw [hlow]
    unfold processLineTok
    rw [hiq, hiq, hiq]
  · intro st t h
    have hsp : ' ' ∉ t := by
      rcases h with h1 | h1 | h1
      · exact space_not_mem_of_map_toLower t _ h1 (by decide)
      · exact space_not_mem_of_map_toLower t _ h1 (by decide)
      · exact space_not_mem_of_map_toLower t _ h1 (by decide)
    have hlow : (t.map Char.toLower).map Char.toLower = t.map Char.toLower := by
      rcases h with h1 | h1 | h1 <;> rw [h1] <;> decide
    have hsp2 : ' ' ∉ t.map Char.toLower := by
      rcases h with h1 | h1 | h1 <;> rw [h1] <;> decide
    have hne : t.isEmpty = false := by
      rcases h with h1 | h1 | h1 <;>
        (cases t with
          | nil => simp at h1
          | cons c ts => rfl)
    have hne2 : (t.map Char.toLower).isEmpty = false := by
      rcases h with h1 | h1 | h1 <;> rw [h1] <;> decide
    rw [processLine_no_space st t hsp hne,
      processLine_no_space st (t.map Char.toLower) hsp2 hne2]
    have hiq : ∀ b : List Char, iequals (t.map Char.toLower) b = iequals t b := by
      intro b
      unfold iequals
      rw [hlow]
    have hsplit := splitTok_no_space t hsp
    have hsplit2 := splitTok_no_space (t.map Char.toLower) hsp2
    have e1 : (splitTok t).1 = t := by rw [hsplit]
    have e2 : (splitTok t).2 = t := by rw [hsplit]
    have f1 : (splitTok (t.map Char.toLower)).1 = t.map Char.toLower := by
      rw [hsplit2]
    have f2 : (splitTok (t.map Char.toLower)).2 = t.map Char.toLower := by
      rw [hsplit2]
    rcases h with h1 | h1 | h1
    · have hS : iequals t ("stereo".toList) = true := by
        rw [iequals_iff, h1]
        decide
      simp only [processLineTok, hiq, hS, eq_self_iff_true, if_true,
        stereoBranch_eq, e1, e2, f1, f2, hne, hne2, Bool.not_false,
        Bool.and_self, Option.isSome_some, Option.map_some', and_self]
    · have hM : iequals t ("mono".toList) = true := by
        rw [iequals_iff, h1]
        decide
      have hS : iequals t ("stereo".toList) = false :=
        iequals_false_of_ne t _ _ hM (by decide)
      simp only [processLineTok, hiq, hS, hM, Bool.false_eq_true, if_false,
        eq_self_iff_true, if_true, monoBranch_eq, e1, f1, hne, hne2,
        Bool.not_false, Option.isSome_some, Option.map_some', and_self]
    · have hI : iequals t ("imu".toList) = true := by
        rw [iequals_iff, h1]
        decide
      have hS : iequals t ("stereo".toList) = false :=
        iequals_false_of_ne t _ _ hI (by decide)
      have hM : iequals t ("mono".toList) = false :=
        iequals_false_of_ne t _ _ hI (by decide)
      cases hH : st.hasIMU <;>
        simp only [processLineTok, hiq, hS, hM, hI, Bool.false_eq_true,
          if_false, eq_self_iff_true, if_true, imuBranch_eq, hH, e1, f1,
          hne, hne2, Bool.not_false, Option.isSome_some, Option.isSome_none,
          Option.map_some', Option.map_none', and_self]

/-- C10: declaration order is preserved: the camera-namespace list of an
accepted config holds one group per camera line in file order — a stereo
line contributing its left topic then its right topic, a mono line its
single topic — and the derived camera-info / image topic lists enumerate
exactly those namespaces in that same order. -/
theorem parseConfigFile_preserves_order (lines : List (List Char))
    (cns : List (List (List Char))) (imu : List Char)
    (h : parseConfigFile lines = some (cns, imu)) :
    cns = lines.filterMap lineCams ∧
      camInfoTopicNames cns =
        (lines.filterMap lineCams).flatten.map
          (fun ns => ns ++ ("/camera_info".toList)) ∧
      camImageTopicNames cns =
        (lines.filterMap lineCams).flatten.map
          (fun ns => ns ++ ("/image_raw".toList)) := by
  have h1 : cns = camsOf lines := parseConfigFile_some_cameraNs lines cns imu h
  refine ⟨h1, ?_, ?_⟩
  · rw [h1]
    rfl
  · rw [h1]
    rfl

/-- C10 witness: the order theorem applied to a mixed stereo + mono
config. -/
theorem parseConfigFile_preserves_order_witness :
    [["/l".toList, "/r".toList], ["/m".toList]] =
        mixedCfg.filterMap lineCams ∧
      camInfoTopicNames [["/l".toList, "/r".toList], ["/m".toList]] =
        (mixedCfg.filterMap lineCams).flatten.map
          (fun ns => ns ++ ("/camera_info".toList)) ∧
      camImageTopicNames [["/l".toList, "/r".toList], ["/m".toList]] =
        (mixedCfg.filterMap lineCams).flatten.map
          (fun ns => ns ++ ("/image_raw".toList)) :=
  parseConfigFile_preserves_order mixedCfg
    [["/l".toList, "/r".toList], ["/m".toList]] ("/i".toList) (by decide)
